import Mathlib

/-!
Verification of the review-comment store of `vscode-code-review`
(`src/review-comment.ts`).  The service state observable by the claims —
the backing review file and the error messages shown to the user — is made
explicit as a `World` value threaded through the operations.  JavaScript
string primitives (`includes`, `replace` with a string pattern, `split`,
`join`) are embedded as functions on character lists.  Helper modules that
the service imports but whose sources are not in the repository snapshot
(`utils/workspace-util`, `utils/storage-utils`, `utils/editor-utils`,
`CsvStructure`) are modelled from the specification; each such definition
says so in its doc comment.
-/

namespace CodeReview

/-- Platform end-of-line terminator (`os.EOL`), modelled as a single newline. -/
def EOL : String := "\n"

/-- Occurrence test for char lists: does `p` occur as a contiguous sublist?
Mirrors JavaScript `String.prototype.includes`. -/
def occursIn (p : List Char) : List Char → Bool
  | [] => p.isEmpty
  | c :: cs => p.isPrefixOf (c :: cs) || occursIn p cs

/-- Index of the first occurrence of `p` (JavaScript `String.prototype.indexOf`). -/
def firstIdx? (p : List Char) : List Char → Option Nat
  | [] => if p.isEmpty then some 0 else none
  | c :: cs => if p.isPrefixOf (c :: cs) then some 0 else (firstIdx? p cs).map (· + 1)

/-- Replace the first occurrence of `p` by `r` (JavaScript
`String.prototype.replace` with a string pattern replaces only the first
occurrence). -/
def replaceFirstAux (p r : List Char) : List Char → List Char
  | [] => if p.isEmpty then r else []
  | c :: cs =>
      if p.isPrefixOf (c :: cs) then r ++ (c :: cs).drop p.length
      else c :: replaceFirstAux p r cs

/-- String wrapper for `replaceFirstAux`: `s.replace(p, r)` in JavaScript. -/
def replaceFirst (s p r : String) : String := ⟨replaceFirstAux p.data r.data s.data⟩

/-- String wrapper for `occursIn`: `s.includes(p)` in JavaScript. -/
def containsSubstr (s p : String) : Bool := occursIn p.data s.data

/-- Split a char list at every occurrence of the separator character
(JavaScript `String.prototype.split` with a one-character separator). -/
def splitChar (c : Char) : List Char → List (List Char)
  | [] => [[]]
  | a :: as =>
      match splitChar c as with
      | [] => [[]]
      | h :: t => if a = c then [] :: h :: t else (a :: h) :: t

/-- `content.split(EOL)`. -/
def splitEOL (s : String) : List String := (splitChar '\n' s.data).map fun l => ⟨l⟩

/-- `rows.join(EOL)`. -/
def joinEOL : List String → String
  | [] => ""
  | [r] => r
  | r :: r' :: rs => r ++ EOL ++ joinEOL (r' :: rs)

/-- Comma-join of a field list, for the CSV line. -/
def joinComma : List String → String
  | [] => ""
  | [r] => r
  | r :: r' :: rs => r ++ "," ++ joinComma (r' :: rs)

/-- Modelled from the spec: `escapeDoubleQuotesForCsv` from the missing
`utils/workspace-util` module; escapes embedded quote characters by the CSV
quote-doubling convention. -/
def escapeDoubleQuotesForCsv (s : String) : String :=
  ⟨(s.data.map fun c => if c = '"' then ['"', '"'] else [c]).flatten⟩

/-- Modelled from the spec: `escapeEndOfLineForCsv` from the missing
`utils/workspace-util` module; escapes embedded line terminators, replacing
each by the two-character sequence backslash-n. -/
def escapeEndOfLineForCsv (s : String) : String :=
  ⟨(s.data.map fun c => if c = '\n' then ['\\', 'n'] else [c]).flatten⟩

/-- Modelled from the spec: `removeTrailingSlash` from the missing
`utils/workspace-util` module; strips a trailing slash. -/
def removeTrailingSlash (s : String) : String :=
  if s.data.getLast? = some '/' then ⟨s.data.dropLast⟩ else s

/-- Modelled from the spec: `removeLeadingAndTrailingSlash` from the missing
`utils/workspace-util` module; strips one leading and one trailing slash. -/
def removeLeadingAndTrailingSlash (s : String) : String :=
  let t := if s.data.head? = some '/' then String.mk s.data.tail else s
  if t.data.getLast? = some '/' then ⟨t.data.dropLast⟩ else t

/-- Modelled from the spec: `startLineNumberFromStringDefinition` from the
missing `utils/workspace-util` module; decodes the start line number of a
line-range definition such as `12` or `12-20`. -/
def startLineNumberFromStringDefinition (s : String) : Nat :=
  (String.toNat? ⟨(splitChar '-' s.data).headD []⟩).getD 0

/-- Modelled from the spec: `endLineNumberFromStringDefinition` from the
missing `utils/workspace-util` module; decodes the optional end line number,
undefined for a single-line definition. -/
def endLineNumberFromStringDefinition (s : String) : Option Nat :=
  match splitChar '-' s.data with
  | [_, e] => String.toNat? ⟨e⟩
  | _ => none

/-- Modelled from the spec: `cleanCsvStorage` from the missing
`utils/storage-utils` module; normalization removes empty rows. -/
def cleanCsvStorage (rows : List String) : List String :=
  rows.filter fun r => !r.isEmpty

/-- The editor selection, a start/end line pair. -/
structure Selection where
  startLine : Nat
  endLine : Nat
deriving DecidableEq

/-- The working text editor: the open file's name and the current selection
(`none` = no selection). -/
structure TextEditor where
  fileName : String
  selection : Option Selection
deriving DecidableEq

/-- Modelled from the spec: `hasSelection` from the missing
`utils/editor-utils` module; the editor supplies a selection or reports that
there is none. -/
def hasSelection : Option TextEditor → Bool
  | none => false
  | some ed => ed.selection.isSome

/-- Modelled from the spec: `getSelectionStringDefinition` from the missing
`utils/editor-utils` module; encodes the selection's start/end line numbers
as a canonical string definition (`12` for a single line, `12-20` for a
range). -/
def getSelectionStringDefinition (ed : TextEditor) : String :=
  match ed.selection with
  | none => ""
  | some sel =>
      if sel.startLine = sel.endLine then toString sel.startLine
      else toString sel.startLine ++ "-" ++ toString sel.endLine

/-- The CSV record model (`CsvEntry` in `model.ts`), extended with the stable
identifier `id` that `review-comment.ts` reads for row lookup. -/
structure CsvEntry where
  id : String
  sha : String
  filename : String
  url : String
  lines : String
  title : String
  comment : String
  priority : String
  category : String
  additional : String
deriving DecidableEq

/-- A list-view entry driving deletion: the visible label and comment text. -/
structure CommentListEntry where
  label : String
  text : String
deriving DecidableEq

/-- The configuration surface read by the service. -/
structure Config where
  gitDirectory : String
  customUrl : String
  baseUrl : String
deriving DecidableEq

/-- Modelled from the spec: `CsvStructure.formatAsCsvLine` from the missing
part of `model.ts`; produces one delimited line with the fields in a fixed
order, each field wrapped in double quotes. -/
def formatAsCsvLine (c : CsvEntry) : String :=
  joinComma ([c.id, c.sha, c.filename, c.url, c.lines, c.title, c.comment,
    c.priority, c.category, c.additional].map fun f => "\"" ++ f ++ "\"")

/-- The observable state: the backing review file (`none` = absent) and the
error messages shown so far via `window.showErrorMessage`. -/
structure World where
  fs : Option String
  errors : List String
deriving DecidableEq

/-- The service's construction parameters. -/
structure ReviewCommentService where
  reviewFile : String
  workspaceRoot : String
deriving DecidableEq

/-- `checkFileExists`: shows an error when the file is absent.  The source's
`return` statement exits only this private helper, so it cannot abort the
calling operation; the helper has no other effect. -/
def checkFileExists (svc : ReviewCommentService) (w : World) : World :=
  if w.fs.isNone then
    { w with errors := w.errors ++
        ["Could not add to file: '" ++ svc.reviewFile ++ "': File does not exist"] }
  else w

/-- Truthiness of an optional line number: JavaScript treats both `undefined`
and `0` as falsy. -/
def truthyNum : Option Nat → Bool
  | none => false
  | some n => n != 0

/-- `remoteUrl`: derive the browsable URL from the configuration, the SHA,
the relative file path and the optional start/end line numbers. -/
def remoteUrl (cfg : Config) (sha filePath : String) (start end_ : Option Nat) : String :=
  let filePathWithoutLeadingAndTrailingSlash := removeLeadingAndTrailingSlash filePath
  if cfg.baseUrl = "" ∧ cfg.customUrl = "" then ""
  else if cfg.customUrl ≠ "" then
    replaceFirst (replaceFirst (replaceFirst (replaceFirst cfg.customUrl
      "{sha}" sha)
      "{file}" filePathWithoutLeadingAndTrailingSlash)
      "{start}" (if truthyNum start then toString (start.getD 0) else "0"))
      "{end}" (if truthyNum end_ then toString (end_.getD 0) else "0")
  else
    let baseUrlWithoutTrailingSlash := removeTrailingSlash cfg.baseUrl
    let shaPart := if sha ≠ "" then sha ++ "/" else ""
    let ankerPart :=
      if truthyNum start && truthyNum end_ then
        "#L" ++ toString (start.getD 0) ++ "-L" ++ toString (end_.getD 0)
      else ""
    baseUrlWithoutTrailingSlash ++ "/" ++ shaPart ++
      filePathWithoutLeadingAndTrailingSlash ++ ankerPart

/-- `buildCsvString`: escape the fields, resolve the SHA (the git lookup is a
collaborator; `shaResult = none` models the caught lookup failure, degrading
to an empty SHA), build the remote URL and format the CSV line. -/
def buildCsvString (cfg : Config) (shaResult : Option String) (comment : CsvEntry) : String :=
  let copy := { comment with
    comment := escapeEndOfLineForCsv (escapeDoubleQuotesForCsv comment.comment)
    title := if comment.title ≠ "" then escapeDoubleQuotesForCsv comment.title else ""
    priority := if comment.priority ≠ "" then comment.priority else "0"
    additional := if comment.additional ≠ "" then escapeDoubleQuotesForCsv comment.additional else ""
    category := if comment.category ≠ "" then comment.category else ""
    sha := shaResult.getD "" }
  let startAnker := startLineNumberFromStringDefinition copy.lines
  let endAnker := endLineNumberFromStringDefinition copy.lines
  formatAsCsvLine { copy with
    url := remoteUrl cfg copy.sha copy.filename (some startAnker) endAnker }

/-- `getSelectedLines`: refresh `comment.lines` from the editor selection.
Returns the updated comment (`none` = failure reported to the caller)
together with the error messages emitted. -/
def getSelectedLines (comment : CsvEntry) (editor : Option TextEditor)
    (ignoreIfNone : Bool) : Option CsvEntry × List String :=
  if ignoreIfNone && !hasSelection editor then (some comment, [])
  else
    match editor with
    | none => (none, ["Error referencing file/lines, Please select again."])
    | some ed =>
      match ed.selection with
      | none => (none, ["Error referencing file/lines, Please select again."])
      | some _ => (some { comment with lines := getSelectionStringDefinition ed }, [])

/-- `persistComments`: write the rows to the review file, each terminated by
an EOL.  `overwrite = true` rewrites the file; `false` appends, creating the
file when absent as `fs.appendFileSync` does. -/
def persistComments (w : World) (rows : List String) (overwrite : Bool) : World :=
  let content := joinEOL (cleanCsvStorage rows) ++ EOL
  if overwrite then { w with fs := some content }
  else { w with fs := some (w.fs.getD "" ++ content) }

/-- `fs.readFileSync` on the review file (an absent file is read as empty). -/
def readReviewFile (w : World) : String := w.fs.getD ""

/-- Modelled from the spec: `getCsvFileLinesAsArray` from the missing
`utils/storage-utils` module; the rows of the backing file, one per raw text
line, normalized. -/
def getCsvFileLinesAsArray (w : World) : List String :=
  cleanCsvStorage (splitEOL (readReviewFile w))

/-- The file name of the working editor (`editor!.document.fileName`; the
`none` case is unreachable on the paths where the source dereferences it). -/
def editorFileName : Option TextEditor → String
  | none => ""
  | some ed => ed.fileName

/-- `addComment`: append a new comment row. -/
def addComment (svc : ReviewCommentService) (cfg : Config) (shaResult : Option String)
    (comment : CsvEntry) (editor : Option TextEditor) (w : World) : World :=
  let w := checkFileExists svc w
  match getSelectedLines comment editor false with
  | (none, errs) => { w with errors := w.errors ++ errs }
  | (some c, errs) =>
    let w := { w with errors := w.errors ++ errs }
    let c := { c with filename := replaceFirst (editorFileName editor) svc.workspaceRoot "" }
    persistComments w [buildCsvString cfg shaResult c] false

/-- `updateComment`: locate the target row by identifier, falling back to
(filename and previous lines value), then replace it in place and rewrite. -/
def updateComment (svc : ReviewCommentService) (cfg : Config) (shaResult : Option String)
    (comment : CsvEntry) (editor : Option TextEditor) (w : World) : World :=
  let w := checkFileExists svc w
  let fallBackKey := comment.lines
  match getSelectedLines comment editor true with
  | (none, errs) => { w with errors := w.errors ++ errs }
  | (some c, errs) =>
    let w := { w with errors := w.errors ++ errs }
    let rows := getCsvFileLinesAsArray w
    let updateRowIndex :=
      (rows.findIdx? fun row => containsSubstr row c.id).or
        (rows.findIdx? fun row =>
          containsSubstr row c.filename && containsSubstr row fallBackKey)
    match updateRowIndex with
    | none =>
      { w with errors := w.errors ++
          ["Update failed. Cannot find line definition '" ++ c.lines ++ "' for '" ++
            c.filename ++ "' in '" ++ svc.reviewFile ++ "'."] }
    | some i => persistComments w (rows.set i (buildCsvString cfg shaResult c)) true

/-- `deleteComment`: locate the row containing the entry's label and escaped
comment text, remove it and rewrite the file. -/
def deleteComment (svc : ReviewCommentService) (entry : CommentListEntry) (w : World) : World :=
  let w := checkFileExists svc w
  let oldFileContent := readReviewFile w
  let rows := splitEOL oldFileContent
  let textEscaped := escapeEndOfLineForCsv (escapeDoubleQuotesForCsv entry.text)
  match rows.findIdx? fun row => containsSubstr row entry.label && containsSubstr row textEscaped with
  | some i => persistComments w (rows.eraseIdx i) true
  | none =>
    { w with errors := w.errors ++
        ["Update failed. Cannot delete comment '" ++ entry.label ++ "' in '" ++
          svc.reviewFile ++ "'."] }

/-- The four placeholders recognized by the custom URL template. -/
inductive UrlPlaceholder
  | sha
  | file
  | lineStart
  | lineEnd
deriving DecidableEq

/-- The literal text of a placeholder. -/
def placeholderText : UrlPlaceholder → List Char
  | .sha => "{sha}".data
  | .file => "{file}".data
  | .lineStart => "{start}".data
  | .lineEnd => "{end}".data

/-- A custom URL template parsed into segments: literal chunks and
placeholder occurrences.  Any template string is expressible this way; a
segment list denotes the template obtained by concatenating its pieces. -/
inductive UrlToken
  | lit : List Char → UrlToken
  | ph : UrlPlaceholder → UrlToken
deriving DecidableEq

/-- The text of one template segment. -/
def renderToken : UrlToken → List Char
  | .lit l => l
  | .ph k => placeholderText k

/-- The template text: the concatenation of its segments. -/
def renderTemplate (ts : List UrlToken) : List Char := (ts.map renderToken).flatten

/-- Side condition ruling out placeholder fragments hidden in literal chunks:
no literal contains an opening brace, so every placeholder occurrence in the
rendered template is exactly one `ph` segment. -/
def litsBraceFree : List UrlToken → Bool
  | [] => true
  | .lit l :: ts => decide ('{' ∉ l) && litsBraceFree ts
  | .ph _ :: ts => litsBraceFree ts

/-- Replace the first `ph k` segment by the literal value `v`, leaving every
other segment — in particular every repeated occurrence of `k` — unchanged. -/
def replacePh (k : UrlPlaceholder) (v : List Char) : List UrlToken → List UrlToken
  | [] => []
  | .lit l :: ts => .lit l :: replacePh k v ts
  | .ph k' :: ts => if k' = k then .lit v :: ts else .ph k' :: replacePh k v ts

/-! Generic lemmas about the JavaScript string primitives -/

/-- The empty pattern occurs in every char list. -/
theorem occursIn_nil_left (s : List Char) : occursIn [] s = true := by
  induction s with
  | nil => rfl
  | cons c cs ih => simp [occursIn, List.isPrefixOf]

/-- A pattern occurs in any list in which it appears contiguously. -/
theorem occursIn_append_self (p x y : List Char) : occursIn p (x ++ p ++ y) = true := by
  induction x with
  | nil =>
    cases p with
    | nil => simpa using occursIn_nil_left y
    | cons d ds =>
      simp only [List.nil_append, occursIn, Bool.or_eq_true]
      left
      rw [List.isPrefixOf_iff_prefix]
      exact List.prefix_append _ _
  | cons c x' ih =>
    simp only [List.cons_append, occursIn, Bool.or_eq_true]
    right
    simpa using ih

/-- If a pattern does not occur, `replaceFirstAux` leaves the list unchanged. -/
theorem replaceFirstAux_of_not_occurs {p : List Char} (r : List Char) {s : List Char}
    (h : occursIn p s = false) : replaceFirstAux p r s = s := by
  induction s with
  | nil =>
    simp only [occursIn] at h
    simp [replaceFirstAux, h]
  | cons c cs ih =>
    simp only [occursIn, Bool.or_eq_false_iff] at h
    simp [replaceFirstAux, h.1, ih h.2]

/-- `replaceFirstAux` rewrites exactly at the first occurrence. -/
theorem replaceFirstAux_eq_of_firstIdx {p r s : List Char} {i : Nat}
    (h : firstIdx? p s = some i) :
    replaceFirstAux p r s = s.take i ++ r ++ s.drop (i + p.length) := by
  induction s generalizing i with
  | nil =>
    simp only [firstIdx?] at h
    split at h
    · next hp =>
      cases h
      have : p = [] := by simpa [List.isEmpty_iff] using hp
      subst this
      simp [replaceFirstAux]
    · cases h
  | cons c cs ih =>
    simp only [firstIdx?] at h
    split at h
    · next hpre =>
      cases h
      simp [replaceFirstAux, hpre]
    · next hpre =>
      rcases Option.map_eq_some'.mp h with ⟨j, hj, rfl⟩
      have hrec := ih hj
      simp only [replaceFirstAux, hpre, if_false]
      rw [hrec]
      simp [List.take_succ_cons, List.drop_succ_cons, Nat.add_right_comm]

/-- A nonempty string is one with nonempty character data. -/
theorem String.ne_empty_iff_data {s : String} : s ≠ "" ↔ s.data ≠ [] := by
  constructor
  · intro h hdata
    exact h (String.ext hdata)
  · intro h hs
    subst hs
    exact h rfl

/-- Bound for a successful `findIdx?` search, generalized over the start index. -/
theorem List.findIdx?_lt_length {α : Type _} {p : α → Bool} :
    ∀ {l : List α} {s i : Nat}, List.findIdx? p l s = some i → s ≤ i ∧ i < s + l.length
  | [], _, _, h => by simp [List.findIdx?] at h
  | x :: xs, s, i, h => by
    rw [List.findIdx?_cons] at h
    split at h
    · cases h
      exact ⟨Nat.le_refl _, by simp⟩
    · have := List.findIdx?_lt_length h
      simp only [List.length_cons]
      exact ⟨Nat.le_of_succ_le this.1, by omega⟩

/-- `splitChar` never returns an empty list of pieces. -/
theorem splitChar_ne_nil (c : Char) (s : List Char) : splitChar c s ≠ [] := by
  cases s with
  | nil => simp [splitChar]
  | cons a as =>
    simp only [splitChar]
    split
    · simp
    · split <;> simp

/-- Splitting a list that does not contain the separator yields one piece. -/
theorem splitChar_of_not_mem {c : Char} {l : List Char} (h : c ∉ l) :
    splitChar c l = [l] := by
  induction l with
  | nil => rfl
  | cons a as ih =>
    have ha : a ≠ c := fun hac => h (hac ▸ List.mem_cons_self a as)
    have has : c ∉ as := fun hmem => h (List.mem_cons_of_mem _ hmem)
    simp [splitChar, ih has, ha]

/-- Splitting at the first separator occurrence peels off the leading piece. -/
theorem splitChar_append_cons {c : Char} {l : List Char} (h : c ∉ l) (rest : List Char) :
    splitChar c (l ++ c :: rest) = l :: splitChar c rest := by
  induction l with
  | nil =>
    simp only [List.nil_append, splitChar]
    rcases hr : splitChar c rest with _ | ⟨h', t⟩
    · exact absurd hr (splitChar_ne_nil c rest)
    · simp
  | cons a as ih =>
    have ha : a ≠ c := fun hac => h (hac ▸ List.mem_cons_self a as)
    have has : c ∉ as := fun hmem => h (List.mem_cons_of_mem _ hmem)
    simp only [List.cons_append, splitChar, List.append_eq]
    rw [ih has]
    simp [ha]

/-! Persistence format -/

/-- Normalization keeps exactly the nonempty rows. -/
theorem mem_cleanCsvStorage {rows : List String} {r : String} :
    r ∈ cleanCsvStorage rows ↔ r ∈ rows ∧ r ≠ "" := by
  simp only [cleanCsvStorage, List.mem_filter, Bool.not_eq_true']
  constructor
  · rintro ⟨hm, he⟩
    refine ⟨hm, fun hr => ?_⟩
    rw [hr] at he
    exact absurd he (by decide)
  · rintro ⟨hm, he⟩
    refine ⟨hm, ?_⟩
    rcases h : r.isEmpty
    · rfl
    · exact absurd ((String.isEmpty_iff r).mp h) he

/-- Normalization distributes over concatenation. -/
theorem cleanCsvStorage_append (l₁ l₂ : List String) :
    cleanCsvStorage (l₁ ++ l₂) = cleanCsvStorage l₁ ++ cleanCsvStorage l₂ :=
  List.filter_append l₁ l₂

/-- Normalization is the identity on lists of nonempty rows. -/
theorem cleanCsvStorage_eq_self {rows : List String} (h : ∀ r ∈ rows, r ≠ "") :
    cleanCsvStorage rows = rows := by
  refine List.filter_eq_self.mpr fun r hr => ?_
  rcases he : r.isEmpty with _ | _
  · rfl
  · exact absurd ((String.isEmpty_iff r).mp he) (h r hr)

/-- Splitting the serialized content of nonempty newline-free rows recovers the
rows followed by the single empty piece after the trailing terminator. -/
theorem splitEOL_joinEOL_append_EOL :
    ∀ {rows : List String}, rows ≠ [] → (∀ r ∈ rows, '\n' ∉ r.data) →
      splitEOL (joinEOL rows ++ EOL) = rows ++ [""]
  | [], h, _ => absurd rfl h
  | [r], _, hnl => by
    have hr : '\n' ∉ r.data := hnl r (List.mem_singleton.mpr rfl)
    have hdata : (joinEOL [r] ++ EOL).data = r.data ++ '\n' :: [] := by
      simp [joinEOL, EOL, String.data_append]
    simp only [splitEOL, hdata, splitChar_append_cons hr]
    simp [splitChar]
  | r :: r' :: rs, _, hnl => by
    have hr : '\n' ∉ r.data := hnl r (List.mem_cons_self _ _)
    have htail : ∀ x ∈ r' :: rs, '\n' ∉ x.data :=
      fun x hx => hnl x (List.mem_cons_of_mem _ hx)
    have ih := splitEOL_joinEOL_append_EOL (List.cons_ne_nil r' rs) htail
    have hdata : (joinEOL (r :: r' :: rs) ++ EOL).data
        = r.data ++ '\n' :: (joinEOL (r' :: rs) ++ EOL).data := by
      simp [joinEOL, EOL, String.data_append, List.append_assoc]
    simp only [splitEOL, hdata, splitChar_append_cons hr, List.map_cons]
    simp only [splitEOL] at ih
    rw [ih]
    rfl

/-- Re-normalizing the split persisted content recovers the retained rows. -/
theorem clean_splitEOL_joinEOL {rows : List String} (h : ∀ r ∈ rows, '\n' ∉ r.data) :
    cleanCsvStorage (splitEOL (joinEOL rows ++ EOL)) = cleanCsvStorage rows := by
  rcases hr : rows with _ | ⟨r, rs⟩
  · rfl
  · rw [← hr, splitEOL_joinEOL_append_EOL (hr ▸ List.cons_ne_nil r rs) h,
      cleanCsvStorage_append]
    simp [cleanCsvStorage, show ("" : String).isEmpty = true by decide]

/-! One-physical-line analysis of the serialized record -/

/-- The string fits on one physical line: it contains no line terminator. -/
def onePhysicalLine (s : String) : Prop := '\n' ∉ s.data

instance decidableOnePhysicalLine (s : String) : Decidable (onePhysicalLine s) :=
  inferInstanceAs (Decidable ('\n' ∉ s.data))

/-- Concatenation preserves the one-line property. -/
theorem onePhysicalLine_append {s t : String} (hs : onePhysicalLine s)
    (ht : onePhysicalLine t) : onePhysicalLine (s ++ t) := by
  unfold onePhysicalLine at *
  rw [String.data_append]
  intro hm
  rcases List.mem_append.mp hm with h | h
  · exact hs h
  · exact ht h

/-- Escaping the line terminators leaves no line terminator behind. -/
theorem escapeEndOfLineForCsv_one_line (s : String) :
    onePhysicalLine (escapeEndOfLineForCsv s) := by
  intro hmem
  simp only [escapeEndOfLineForCsv, List.mem_flatten, List.mem_map] at hmem
  rcases hmem with ⟨l, ⟨c, hc, rfl⟩, hl⟩
  by_cases h : c = '\n'
  · simp [h] at hl
  · simp [h] at hl
    exact h hl.symm

/-- Quote escaping introduces no line terminator. -/
theorem escapeDoubleQuotesForCsv_one_line {s : String} (hs : onePhysicalLine s) :
    onePhysicalLine (escapeDoubleQuotesForCsv s) := by
  intro hmem
  simp only [escapeDoubleQuotesForCsv, List.mem_flatten, List.mem_map] at hmem
  rcases hmem with ⟨l, ⟨c, hc, rfl⟩, hl⟩
  by_cases h : c = '"'
  · simp [h] at hl
  · simp [h] at hl
    exact hs (by rwa [← hl] at hc)

/-- `replaceFirstAux` of newline-free inputs is newline-free. -/
theorem replaceFirstAux_no_newline {p : List Char} (r : List Char) :
    ∀ {s : List Char}, '\n' ∉ r → '\n' ∉ s → '\n' ∉ replaceFirstAux p r s
  | [], hr, _ => by
    simp only [replaceFirstAux]
    split
    · exact hr
    · simp
  | c :: cs, hr, hs => by
    have hc : c ≠ '\n' := fun h => hs (h ▸ List.mem_cons_self c cs)
    have hcs : '\n' ∉ cs := fun h => hs (List.mem_cons_of_mem _ h)
    simp only [replaceFirstAux]
    split
    · intro hmem
      rcases List.mem_append.mp hmem with h1 | h2
      · exact hr h1
      · exact hs (List.mem_of_mem_drop h2)
    · intro hmem
      rcases List.mem_cons.mp hmem with h1 | h2
      · exact hc h1.symm
      · exact replaceFirstAux_no_newline r hr hcs h2

/-- `replaceFirst` preserves the one-line property. -/
theorem replaceFirst_one_line {s r : String} (p : String) (hs : onePhysicalLine s)
    (hr : onePhysicalLine r) : onePhysicalLine (replaceFirst s p r) :=
  replaceFirstAux_no_newline r.data hr hs

/-- The comma join of one-line fields is one line. -/
theorem joinComma_one_line :
    ∀ {l : List String}, (∀ s ∈ l, onePhysicalLine s) → onePhysicalLine (joinComma l)
  | [], _ => by simp [joinComma, onePhysicalLine]
  | [r], h => by simpa [joinComma] using h r (List.mem_singleton.mpr rfl)
  | r :: r' :: rs, h => by
    have h1 := h r (List.mem_cons_self _ _)
    have h2 := joinComma_one_line fun x hx => h x (List.mem_cons_of_mem _ hx)
    exact onePhysicalLine_append (onePhysicalLine_append h1 (by decide)) h2

/-- Decimal digits are never a line terminator. -/
theorem digitChar_ne_newline {n : Nat} (h : n < 10) : Nat.digitChar n ≠ '\n' := by
  interval_cases n <;> decide

/-- The characters accumulated by `Nat.toDigitsCore` in base ten are never
line terminators. -/
theorem toDigitsCore_no_newline :
    ∀ (fuel n : Nat) (ds : List Char), '\n' ∉ ds → '\n' ∉ Nat.toDigitsCore 10 fuel n ds
  | 0, _, ds, h => by simpa [Nat.toDigitsCore] using h
  | fuel + 1, n, ds, h => by
    have hd : '\n' ∉ (n % 10).digitChar :: ds := by
      intro hmem
      rcases List.mem_cons.mp hmem with h1 | h2
      · exact digitChar_ne_newline (Nat.mod_lt _ (by omega)) h1.symm
      · exact h h2
    simp only [Nat.toDigitsCore]
    split
    · exact hd
    · exact toDigitsCore_no_newline fuel _ _ hd

/-- The decimal rendering of a natural number is one line. -/
theorem toString_nat_one_line (n : Nat) : onePhysicalLine (toString n) := by
  have hdata : (toString n).data = Nat.toDigitsCore 10 (n + 1) n [] := rfl
  unfold onePhysicalLine
  rw [hdata]
  exact toDigitsCore_no_newline (n + 1) n [] (by simp)

/-- Stripping a trailing slash preserves the one-line property. -/
theorem removeTrailingSlash_one_line {s : String} (h : onePhysicalLine s) :
    onePhysicalLine (removeTrailingSlash s) := by
  unfold removeTrailingSlash
  split
  · exact fun hm => h (List.dropLast_subset _ hm)
  · exact h

/-- Stripping leading and trailing slashes preserves the one-line property. -/
theorem removeLeadingAndTrailingSlash_one_line {s : String} (h : onePhysicalLine s) :
    onePhysicalLine (removeLeadingAndTrailingSlash s) := by
  unfold removeLeadingAndTrailingSlash
  set t := if s.data.head? = some '/' then String.mk s.data.tail else s with ht
  have htl : onePhysicalLine t := by
    rw [ht]
    split
    · exact fun hm => h (List.tail_subset _ hm)
    · exact h
  show onePhysicalLine (if t.data.getLast? = some '/' then String.mk t.data.dropLast else t)
  split
  · exact fun hm => htl (List.dropLast_subset _ hm)
  · exact htl

/-- The remote URL built from one-line configuration and inputs is one line. -/
theorem remoteUrl_one_line {cfg : Config} {sha filePath : String} {start end_ : Option Nat}
    (hcu : onePhysicalLine cfg.customUrl) (hbu : onePhysicalLine cfg.baseUrl)
    (hsha : onePhysicalLine sha) (hf : onePhysicalLine filePath) :
    onePhysicalLine (remoteUrl cfg sha filePath start end_) := by
  have hfile : onePhysicalLine (removeLeadingAndTrailingSlash filePath) :=
    removeLeadingAndTrailingSlash_one_line hf
  simp only [remoteUrl]
  split
  · simp [onePhysicalLine]
  · split
    · refine replaceFirst_one_line _ (replaceFirst_one_line _ (replaceFirst_one_line _
        (replaceFirst_one_line _ hcu hsha) hfile) ?_) ?_
      · split
        · exact toString_nat_one_line _
        · decide
      · split
        · exact toString_nat_one_line _
        · decide
    · refine onePhysicalLine_append (onePhysicalLine_append (onePhysicalLine_append
        (onePhysicalLine_append (removeTrailingSlash_one_line hbu) (by decide)) ?_)
        hfile) ?_
      · split
        · exact onePhysicalLine_append hsha (by decide)
        · decide
      · split
        · exact onePhysicalLine_append (onePhysicalLine_append (onePhysicalLine_append
            (by decide) (toString_nat_one_line _)) (by decide)) (toString_nat_one_line _)
        · decide

/-- A CSV line of one-line fields is one line. -/
theorem formatAsCsvLine_one_line {c : CsvEntry}
    (h : ∀ f ∈ [c.id, c.sha, c.filename, c.url, c.lines, c.title, c.comment,
      c.priority, c.category, c.additional], onePhysicalLine f) :
    onePhysicalLine (formatAsCsvLine c) := by
  unfold formatAsCsvLine
  refine joinComma_one_line ?_
  intro s hs
  rcases List.mem_map.mp hs with ⟨f, hf, rfl⟩
  exact onePhysicalLine_append (onePhysicalLine_append (by decide) (h f hf)) (by decide)

/-! Claim theorems -/

/-- C1: the claim says each store operation aborts on a missing backing
file before any read or write.  The code does not: `checkFileExists` only
shows the error, its `return` exits the guard alone, and `addComment` then
proceeds to append, creating and writing the review file.  This theorem
evaluates the code at the failing input (absent file, valid selection): the
missing-file error is reported, yet the file is mutated. -/
theorem addComment_mutates_despite_missing_file :
    (addComment ⟨"/ws/review.csv", "/ws"⟩ ⟨".", "", ""⟩ none
        ⟨"id-1", "", "", "", "", "t", "hello", "1", "cat", "add"⟩
        (some ⟨"/ws/src/a.ts", some ⟨3, 7⟩⟩) ⟨none, []⟩).fs ≠ none
    ∧ (addComment ⟨"/ws/review.csv", "/ws"⟩ ⟨".", "", ""⟩ none
        ⟨"id-1", "", "", "", "", "t", "hello", "1", "cat", "add"⟩
        (some ⟨"/ws/src/a.ts", some ⟨3, 7⟩⟩) ⟨none, []⟩).errors
      = ["Could not add to file: '/ws/review.csv': File does not exist"] := by
  constructor
  · decide
  · decide

/-- C2 (counterexample): a title containing a line terminator is not
EOL-escaped by `buildCsvString` — the source applies only
`escapeDoubleQuotesForCsv` to `title` and `additional` — so this serialized
record spans more than one physical line, refuting the claim as stated. -/
theorem buildCsvString_title_newline_not_escaped :
    ¬ onePhysicalLine (buildCsvString ⟨".", "", ""⟩ none
      ⟨"id-1", "", "f.ts", "", "3", "a\nb", "hello", "1", "cat", "add"⟩) := by
  decide

/-- C2 (amended): `buildCsvString` escapes embedded double quotes in the
comment text, the title and the additional field, but embedded line
terminators only in the comment text; the serialized record occupies exactly
one physical line provided the title, the additional field and the remaining
raw fields contain no embedded line terminator, while the comment text may
contain line terminators freely (no hypothesis on it). -/
theorem buildCsvString_one_line (cfg : Config) (shaResult : Option String) (e : CsvEntry)
    (hid : onePhysicalLine e.id) (hfn : onePhysicalLine e.filename)
    (hln : onePhysicalLine e.lines) (hti : onePhysicalLine e.title)
    (hpr : onePhysicalLine e.priority) (hca : onePhysicalLine e.category)
    (had : onePhysicalLine e.additional) (hsha : onePhysicalLine (shaResult.getD ""))
    (hcu : onePhysicalLine cfg.customUrl) (hbu : onePhysicalLine cfg.baseUrl) :
    onePhysicalLine (buildCsvString cfg shaResult e) := by
  unfold buildCsvString
  refine formatAsCsvLine_one_line ?_
  intro f hf
  simp only [List.mem_cons, List.not_mem_nil, or_false] at hf
  rcases hf with rfl | rfl | rfl | rfl | rfl | rfl | rfl | rfl | rfl | rfl
  · exact hid
  · exact hsha
  · exact hfn
  · exact remoteUrl_one_line hcu hbu hsha hfn
  · exact hln
  · split
    · exact escapeDoubleQuotesForCsv_one_line hti
    · decide
  · exact escapeEndOfLineForCsv_one_line _
  · split
    · exact hpr
    · decide
  · split
    · exact hca
    · decide
  · split
    · exact escapeDoubleQuotesForCsv_one_line had
    · decide

/-- Witness for the amended C2 theorem: a record whose comment text contains
both a quote and a line terminator still serializes to one physical line. -/
theorem buildCsvString_one_line_witness :
    onePhysicalLine (buildCsvString ⟨".", "", "https://git.example/repo"⟩ (some "abc")
      ⟨"id-1", "", "/src/x.ts", "", "5-10", "ti", "he\"l\nlo", "1", "cat", "ad"⟩) :=
  buildCsvString_one_line _ _ _ (by decide) (by decide) (by decide) (by decide)
    (by decide) (by decide) (by decide) (by decide) (by decide) (by decide)

/-- C4: `persistComments` is the single write path: `addComment` appends
through it and `updateComment`/`deleteComment` rewrite through it.  The
written content equals the retained rows — after normalization removes the
empty rows — joined by the line terminator and followed by exactly one
trailing terminator: splitting the content back yields exactly the retained
rows plus the single empty trailing piece. -/
theorem persistComments_content (w : World) (rows : List String)
    (h : ∀ r ∈ rows, onePhysicalLine r) :
    (persistComments w rows true).fs = some (joinEOL (cleanCsvStorage rows) ++ EOL)
    ∧ (persistComments w rows false).fs
        = some (w.fs.getD "" ++ (joinEOL (cleanCsvStorage rows) ++ EOL))
    ∧ cleanCsvStorage (splitEOL (joinEOL (cleanCsvStorage rows) ++ EOL))
        = cleanCsvStorage rows
    ∧ (cleanCsvStorage rows ≠ [] →
        splitEOL (joinEOL (cleanCsvStorage rows) ++ EOL) = cleanCsvStorage rows ++ [""]) := by
  have hmem : ∀ r ∈ cleanCsvStorage rows, '\n' ∉ r.data := fun r hr =>
    h r (mem_cleanCsvStorage.mp hr).1
  have hne : ∀ r ∈ cleanCsvStorage rows, r ≠ "" := fun r hr =>
    (mem_cleanCsvStorage.mp hr).2
  refine ⟨by simp [persistComments], by simp [persistComments], ?_, ?_⟩
  · rw [clean_splitEOL_joinEOL hmem, cleanCsvStorage_eq_self hne]
  · intro hnil
    exact splitEOL_joinEOL_append_EOL hnil hmem

/-- Witness for C4 at a concrete world and row list containing an empty row. -/
theorem persistComments_content_witness :
    (persistComments ⟨some "old\n", []⟩ ["r1", "", "r2"] true).fs
      = some (joinEOL (cleanCsvStorage ["r1", "", "r2"]) ++ EOL)
    ∧ splitEOL (joinEOL (cleanCsvStorage ["r1", "", "r2"]) ++ EOL)
      = cleanCsvStorage ["r1", "", "r2"] ++ [""] :=
  ⟨(persistComments_content ⟨some "old\n", []⟩ ["r1", "", "r2"] (by decide)).1,
   (persistComments_content ⟨some "old\n", []⟩ ["r1", "", "r2"] (by decide)).2.2.2
     (by decide)⟩

/-- A present backing file makes the existence guard a no-op. -/
theorem checkFileExists_of_present {svc : ReviewCommentService} {w : World} {f : String}
    (hw : w.fs = some f) : checkFileExists svc w = w := by
  simp [checkFileExists, hw]

/-- Evaluation of `updateComment` on a present file and a successful selection
refresh: the behavior is decided by the identifier search with its
filename-and-previous-lines fallback. -/
theorem updateComment_eq (svc : ReviewCommentService) (cfg : Config)
    (shaResult : Option String) (comment : CsvEntry) (editor : Option TextEditor)
    (w : World) (c : CsvEntry) (f : String) (hw : w.fs = some f)
    (hsel : getSelectedLines comment editor true = (some c, [])) :
    updateComment svc cfg shaResult comment editor w =
      match ((getCsvFileLinesAsArray w).findIdx? fun row => containsSubstr row c.id).or
          ((getCsvFileLinesAsArray w).findIdx? fun row =>
            containsSubstr row c.filename && containsSubstr row comment.lines) with
      | none => { w with errors := w.errors ++
          ["Update failed. Cannot find line definition '" ++ c.lines ++ "' for '" ++
            c.filename ++ "' in '" ++ svc.reviewFile ++ "'."] }
      | some i => persistComments w ((getCsvFileLinesAsArray w).set i
          (buildCsvString cfg shaResult c)) true := by
  unfold updateComment
  rw [checkFileExists_of_present hw, hsel]
  simp only [List.append_nil]

/-- C3: `updateComment` locates the target row by first searching for a row
containing the record's stable identifier; only when that search finds nothing
does it fall back to a row containing both the record's filename and the
previous (pre-refresh) lines value; and when neither search matches any row,
the operation reports the error naming the identifying information and leaves
the file completely unmodified. -/
theorem updateComment_lookup (svc : ReviewCommentService) (cfg : Config)
    (shaResult : Option String) (comment : CsvEntry) (editor : Option TextEditor)
    (w : World) (c : CsvEntry) (f : String) (hw : w.fs = some f)
    (hsel : getSelectedLines comment editor true = (some c, [])) :
    (∀ i, ((getCsvFileLinesAsArray w).findIdx? fun row => containsSubstr row c.id)
          = some i →
        updateComment svc cfg shaResult comment editor w
          = persistComments w ((getCsvFileLinesAsArray w).set i
              (buildCsvString cfg shaResult c)) true)
    ∧ (((getCsvFileLinesAsArray w).findIdx? fun row => containsSubstr row c.id) = none →
        ∀ j, ((getCsvFileLinesAsArray w).findIdx? fun row =>
            containsSubstr row c.filename && containsSubstr row comment.lines) = some j →
          updateComment svc cfg shaResult comment editor w
            = persistComments w ((getCsvFileLinesAsArray w).set j
                (buildCsvString cfg shaResult c)) true)
    ∧ (((getCsvFileLinesAsArray w).findIdx? fun row => containsSubstr row c.id) = none →
        ((getCsvFileLinesAsArray w).findIdx? fun row =>
            containsSubstr row c.filename && containsSubstr row comment.lines) = none →
        (updateComment svc cfg shaResult comment editor w).fs = w.fs
        ∧ (updateComment svc cfg shaResult comment editor w).errors
            = w.errors ++ ["Update failed. Cannot find line definition '" ++ c.lines ++
                "' for '" ++ c.filename ++ "' in '" ++ svc.reviewFile ++ "'."]) := by
  refine ⟨?_, ?_, ?_⟩
  · intro i hi
    rw [updateComment_eq svc cfg shaResult comment editor w c f hw hsel, hi]
    rfl
  · intro hnone j hj
    rw [updateComment_eq svc cfg shaResult comment editor w c f hw hsel, hnone, hj]
    rfl
  · intro hnone hnone2
    rw [updateComment_eq svc cfg shaResult comment editor w c f hw hsel, hnone, hnone2]
    exact ⟨rfl, rfl⟩

/-- Witness for C3: with neither the identifier nor the fallback key present
in the stored rows, the update reports the error and the file is untouched. -/
theorem updateComment_lookup_witness :
    (updateComment ⟨"/ws/review.csv", "/ws"⟩ ⟨".", "", ""⟩ none
        ⟨"zzz", "", "nope", "", "3", "t", "c", "1", "", ""⟩ none
        ⟨some "row-one\nrow-two\n", []⟩).fs
      = (⟨some "row-one\nrow-two\n", []⟩ : World).fs
    ∧ (updateComment ⟨"/ws/review.csv", "/ws"⟩ ⟨".", "", ""⟩ none
        ⟨"zzz", "", "nope", "", "3", "t", "c", "1", "", ""⟩ none
        ⟨some "row-one\nrow-two\n", []⟩).errors
      = (⟨some "row-one\nrow-two\n", []⟩ : World).errors ++
        ["Update failed. Cannot find line definition '3' for 'nope' in '/ws/review.csv'."] :=
  (updateComment_lookup ⟨"/ws/review.csv", "/ws"⟩ ⟨".", "", ""⟩ none
    ⟨"zzz", "", "nope", "", "3", "t", "c", "1", "", ""⟩ none
    ⟨some "row-one\nrow-two\n", []⟩ ⟨"zzz", "", "nope", "", "3", "t", "c", "1", "", ""⟩
    "row-one\nrow-two\n" rfl (by decide)).2.2 (by decide) (by decide)

/-- C8: when the editor has no active selection, the update path's
selection refresh (always invoked with `ignoreIfNone = true`) returns the
record unchanged — the previous `lines` value is preserved verbatim — and
`updateComment` proceeds to the row lookup and rewrite with that unchanged
record rather than failing. -/
theorem updateComment_empty_selection_preserves_lines (svc : ReviewCommentService)
    (cfg : Config) (shaResult : Option String) (comment : CsvEntry)
    (editor : Option TextEditor) (w : World) (f : String)
    (hsel : hasSelection editor = false) (hw : w.fs = some f) :
    getSelectedLines comment editor true = (some comment, [])
    ∧ ∀ i, ((getCsvFileLinesAsArray w).findIdx? fun row => containsSubstr row comment.id)
          = some i →
        updateComment svc cfg shaResult comment editor w
          = persistComments w ((getCsvFileLinesAsArray w).set i
              (buildCsvString cfg shaResult comment)) true := by
  have hgs : getSelectedLines comment editor true = (some comment, []) := by
    simp [getSelectedLines, hsel]
  refine ⟨hgs, fun i hi => ?_⟩
  rw [updateComment_eq svc cfg shaResult comment editor w comment f hw hgs, hi]
  rfl

/-- Witness for C8: an update driven with no editor selection keeps the stored
`lines` value `3-7` and rewrites the row found by identifier. -/
theorem updateComment_empty_selection_witness :
    getSelectedLines ⟨"id-1", "", "f.ts", "", "3-7", "t", "c", "1", "", ""⟩ none true
      = (some ⟨"id-1", "", "f.ts", "", "3-7", "t", "c", "1", "", ""⟩, [])
    ∧ updateComment ⟨"/ws/review.csv", "/ws"⟩ ⟨".", "", ""⟩ none
        ⟨"id-1", "", "f.ts", "", "3-7", "t", "c", "1", "", ""⟩ none
        ⟨some "xx-id-1-yy\n", []⟩
      = persistComments ⟨some "xx-id-1-yy\n", []⟩
          ((getCsvFileLinesAsArray ⟨some "xx-id-1-yy\n", []⟩).set 0
            (buildCsvString ⟨".", "", ""⟩ none
              ⟨"id-1", "", "f.ts", "", "3-7", "t", "c", "1", "", ""⟩)) true :=
  ⟨(updateComment_empty_selection_preserves_lines ⟨"/ws/review.csv", "/ws"⟩ ⟨".", "", ""⟩
      none ⟨"id-1", "", "f.ts", "", "3-7", "t", "c", "1", "", ""⟩ none
      ⟨some "xx-id-1-yy\n", []⟩ "xx-id-1-yy\n" rfl rfl).1,
   (updateComment_empty_selection_preserves_lines ⟨"/ws/review.csv", "/ws"⟩ ⟨".", "", ""⟩
      none ⟨"id-1", "", "f.ts", "", "3-7", "t", "c", "1", "", ""⟩ none
      ⟨some "xx-id-1-yy\n", []⟩ "xx-id-1-yy\n" rfl rfl).2 0 (by decide)⟩

/-- A nonempty pattern never occurs in the empty string. -/
theorem containsSubstr_empty_left {p : String} (hp : p ≠ "") :
    containsSubstr "" p = false := by
  have hd := String.ne_empty_iff_data.mp hp
  show occursIn p.data [] = false
  unfold occursIn
  cases hpd : p.data with
  | nil => exact absurd hpd hd
  | cons c cs => simp

/-- The delete search predicate rejects the empty trailing piece whenever the
entry label is nonempty. -/
theorem delete_pred_empty_row {entry : CommentListEntry} (hlabel : entry.label ≠ "") :
    (containsSubstr "" entry.label &&
      containsSubstr ""
        (escapeEndOfLineForCsv (escapeDoubleQuotesForCsv entry.text))) = false := by
  rw [containsSubstr_empty_left hlabel]
  rfl

/-- Evaluation of `deleteComment` when the backing file holds the well-formed
rows `rows0` and the row search succeeds at index `i`. -/
theorem deleteComment_found (svc : ReviewCommentService) (entry : CommentListEntry)
    (w : World) (rows0 : List String) (i : Nat)
    (hw : w.fs = some (joinEOL rows0 ++ EOL))
    (hnl : ∀ r ∈ rows0, '\n' ∉ r.data) (hne : ∀ r ∈ rows0, r ≠ "")
    (hidx : (rows0.findIdx? fun row => containsSubstr row entry.label &&
        containsSubstr row
          (escapeEndOfLineForCsv (escapeDoubleQuotesForCsv entry.text))) = some i) :
    (deleteComment svc entry w).fs = some (joinEOL (rows0.eraseIdx i) ++ EOL)
    ∧ i < rows0.length := by
  have hil : i < rows0.length := by
    have := (List.findIdx?_lt_length hidx).2
    omega
  have hrow0ne : rows0 ≠ [] := by
    intro hr
    rw [hr] at hidx
    simp [List.findIdx?] at hidx
  have hrows : splitEOL (readReviewFile w) = rows0 ++ [""] := by
    rw [readReviewFile, hw]
    exact splitEOL_joinEOL_append_EOL hrow0ne hnl
  have hfind : ((rows0 ++ [""]).findIdx? fun row => containsSubstr row entry.label &&
      containsSubstr row
        (escapeEndOfLineForCsv (escapeDoubleQuotesForCsv entry.text))) = some i := by
    rw [List.findIdx?_append, hidx]
    rfl
  unfold deleteComment
  dsimp only
  rw [checkFileExists_of_present hw, hrows, hfind]
  dsimp only
  rw [List.eraseIdx_append_of_lt_length hil [""]]
  refine ⟨?_, hil⟩
  have hclean : cleanCsvStorage (rows0.eraseIdx i ++ [""]) = rows0.eraseIdx i := by
    rw [cleanCsvStorage_append,
      cleanCsvStorage_eq_self fun r hr => hne r (List.eraseIdx_subset _ _ hr)]
    simp [cleanCsvStorage, show ("" : String).isEmpty = true by decide]
  simp [persistComments, hclean]

/-- Evaluation of `deleteComment` when no stored row matches: the error is
reported and the file is left untouched. -/
theorem deleteComment_not_found (svc : ReviewCommentService) (entry : CommentListEntry)
    (w : World) (rows0 : List String)
    (hw : w.fs = some (joinEOL rows0 ++ EOL))
    (hnl : ∀ r ∈ rows0, '\n' ∉ r.data)
    (hlabel : entry.label ≠ "")
    (hidx : (rows0.findIdx? fun row => containsSubstr row entry.label &&
        containsSubstr row
          (escapeEndOfLineForCsv (escapeDoubleQuotesForCsv entry.text))) = none) :
    (deleteComment svc entry w).fs = w.fs
    ∧ (deleteComment svc entry w).errors = w.errors ++
        ["Update failed. Cannot delete comment '" ++ entry.label ++ "' in '" ++
          svc.reviewFile ++ "'."] := by
  by_cases hnil : rows0 = []
  · subst hnil
    have hrows : splitEOL (readReviewFile w) = ["", ""] := by
      rw [readReviewFile, hw]
      rfl
    have hfind : ((["", ""] : List String).findIdx? fun row =>
        containsSubstr row entry.label && containsSubstr row
          (escapeEndOfLineForCsv (escapeDoubleQuotesForCsv entry.text))) = none := by
      rw [List.findIdx?_eq_none_iff]
      intro x hx
      have hxe : x = "" := by
        rcases List.mem_cons.mp hx with h | h
        · exact h
        · simpa using h
      rw [hxe]
      exact delete_pred_empty_row hlabel
    unfold deleteComment
    dsimp only
    rw [checkFileExists_of_present hw, hrows, hfind]
    exact ⟨rfl, rfl⟩
  · have hrows : splitEOL (readReviewFile w) = rows0 ++ [""] := by
      rw [readReviewFile, hw]
      exact splitEOL_joinEOL_append_EOL hnil hnl
    have hfind : ((rows0 ++ [""]).findIdx? fun row => containsSubstr row entry.label &&
        containsSubstr row
          (escapeEndOfLineForCsv (escapeDoubleQuotesForCsv entry.text))) = none := by
      rw [List.findIdx?_append, hidx]
      simp [List.findIdx?, List.findIdx?_cons, delete_pred_empty_row hlabel]
    unfold deleteComment
    dsimp only
    rw [checkFileExists_of_present hw, hrows, hfind]
    exact ⟨rfl, rfl⟩

/-- C5: `deleteComment` locates the row containing both the entry's label
and the entry's escaped comment text; on zero matches it reports the error and
alters no rows; on a match at index `i` it removes exactly that one row and
rewrites the full file, so the row count decreases by exactly one and every
other row is kept unchanged. -/
theorem deleteComment_behavior (svc : ReviewCommentService) (entry : CommentListEntry)
    (w : World) (rows0 : List String)
    (hw : w.fs = some (joinEOL rows0 ++ EOL))
    (hnl : ∀ r ∈ rows0, '\n' ∉ r.data) (hne : ∀ r ∈ rows0, r ≠ "")
    (hlabel : entry.label ≠ "") :
    ((rows0.findIdx? fun row => containsSubstr row entry.label &&
        containsSubstr row
          (escapeEndOfLineForCsv (escapeDoubleQuotesForCsv entry.text))) = none →
      (deleteComment svc entry w).fs = w.fs
      ∧ (deleteComment svc entry w).errors = w.errors ++
          ["Update failed. Cannot delete comment '" ++ entry.label ++ "' in '" ++
            svc.reviewFile ++ "'."])
    ∧ (∀ i, (rows0.findIdx? fun row => containsSubstr row entry.label &&
          containsSubstr row
            (escapeEndOfLineForCsv (escapeDoubleQuotesForCsv entry.text))) = some i →
        (deleteComment svc entry w).fs = some (joinEOL (rows0.eraseIdx i) ++ EOL)
        ∧ (rows0.eraseIdx i).length + 1 = rows0.length) := by
  constructor
  · intro hidx
    exact deleteComment_not_found svc entry w rows0 hw hnl hlabel hidx
  · intro i hidx
    obtain ⟨hfs, hil⟩ := deleteComment_found svc entry w rows0 i hw hnl hne hidx
    refine ⟨hfs, ?_⟩
    rw [List.length_eraseIdx, if_pos hil]
    omega

/-- Witness for C5: deleting the single matching row of a two-row store keeps
the other row and shrinks the row count from two to one. -/
theorem deleteComment_behavior_witness :
    (deleteComment ⟨"/ws/review.csv", "/ws"⟩ ⟨"aa", "hello"⟩
        ⟨some (joinEOL ["row-aa-hello", "cc"] ++ EOL), []⟩).fs
      = some (joinEOL ((["row-aa-hello", "cc"] : List String).eraseIdx 0) ++ EOL)
    ∧ ((["row-aa-hello", "cc"] : List String).eraseIdx 0).length + 1
      = (["row-aa-hello", "cc"] : List String).length :=
  (deleteComment_behavior ⟨"/ws/review.csv", "/ws"⟩ ⟨"aa", "hello"⟩
    ⟨some (joinEOL ["row-aa-hello", "cc"] ++ EOL), []⟩ ["row-aa-hello", "cc"]
    rfl (by decide) (by decide) (by decide)).2 0 (by decide)

/-- C10: when more than one stored row contains both the delete entry's
label and its escaped comment text, `deleteComment` removes only the first
such row (the one at the lowest index); every later matching row — here `r2`
— remains in the rewritten file. -/
theorem deleteComment_removes_only_first (svc : ReviewCommentService)
    (entry : CommentListEntry) (w : World) (a b : List String) (r1 r2 : String)
    (hw : w.fs = some (joinEOL (a ++ r1 :: b) ++ EOL))
    (hnl : ∀ r ∈ a ++ r1 :: b, '\n' ∉ r.data) (hne : ∀ r ∈ a ++ r1 :: b, r ≠ "")
    (hr1 : (containsSubstr r1 entry.label && containsSubstr r1
        (escapeEndOfLineForCsv (escapeDoubleQuotesForCsv entry.text))) = true)
    (ha : ∀ r ∈ a, (containsSubstr r entry.label && containsSubstr r
        (escapeEndOfLineForCsv (escapeDoubleQuotesForCsv entry.text))) = false)
    (hr2 : r2 ∈ b)
    (_hr2m : (containsSubstr r2 entry.label && containsSubstr r2
        (escapeEndOfLineForCsv (escapeDoubleQuotesForCsv entry.text))) = true) :
    (deleteComment svc entry w).fs = some (joinEOL (a ++ b) ++ EOL)
    ∧ r2 ∈ a ++ b := by
  have hidx : ((a ++ r1 :: b).findIdx? fun row => containsSubstr row entry.label &&
      containsSubstr row
        (escapeEndOfLineForCsv (escapeDoubleQuotesForCsv entry.text))) = some a.length := by
    rw [List.findIdx?_append, List.findIdx?_eq_none_iff.mpr ha]
    simp [List.findIdx?_cons, hr1]
  obtain ⟨hfs, _⟩ := deleteComment_found svc entry w (a ++ r1 :: b) a.length hw hnl hne hidx
  have herase : (a ++ r1 :: b).eraseIdx a.length = a ++ b := by
    rw [List.eraseIdx_append_of_length_le (Nat.le_refl _)]
    simp
  rw [herase] at hfs
  exact ⟨hfs, List.mem_append_right a hr2⟩

/-- Witness for C10: with two rows matching the (label, text) pair, only the
first is removed and the second remains. -/
theorem deleteComment_removes_only_first_witness :
    (deleteComment ⟨"/ws/review.csv", "/ws"⟩ ⟨"aa", "hello"⟩
        ⟨some (joinEOL (["xx"] ++ "aa-hello-1" :: ["aa-hello-2"]) ++ EOL), []⟩).fs
      = some (joinEOL (["xx"] ++ ["aa-hello-2"]) ++ EOL)
    ∧ "aa-hello-2" ∈ ["xx"] ++ ["aa-hello-2"] :=
  deleteComment_removes_only_first ⟨"/ws/review.csv", "/ws"⟩ ⟨"aa", "hello"⟩
    ⟨some (joinEOL (["xx"] ++ "aa-hello-1" :: ["aa-hello-2"]) ++ EOL), []⟩
    ["xx"] ["aa-hello-2"] "aa-hello-1" "aa-hello-2" rfl (by decide) (by decide)
    (by decide) (by decide) (by decide) (by decide)

/-- Splicing a replacement into the first-occurrence position. -/
theorem replace_splice (a S b c r : List Char) :
    (a ++ S ++ b ++ S ++ c).take a.length ++ r
        ++ (a ++ S ++ b ++ S ++ c).drop (a.length + S.length)
      = a ++ r ++ b ++ S ++ c := by
  have h1 : (a ++ S ++ b ++ S ++ c).take a.length = a := by
    rw [List.append_assoc, List.append_assoc, List.append_assoc]
    exact List.take_left a _
  have h2 : (a ++ S ++ b ++ S ++ c).drop (a.length + S.length) = b ++ S ++ c := by
    rw [show a ++ S ++ b ++ S ++ c = (a ++ S) ++ (b ++ S ++ c) from by
      simp [List.append_assoc]]
    rw [← List.length_append]
    exact List.drop_left _ _
  rw [h1, h2]
  simp [List.append_assoc]

/-- C6: with no custom template configured and a base URL configured, the
remote URL equals the base URL stripped of its trailing slash, then `/`, then
the `sha/` segment only when the resolved SHA is nonempty, then the file path
stripped of leading and trailing slashes, then the `#L<start>-L<end>` anchor
only when both line numbers are present (line numbers are 1-based, so the
value zero is excluded by hypothesis). -/
theorem remoteUrl_base_branch (cfg : Config) (sha filePath : String)
    (start end_ : Option Nat) (hcu : cfg.customUrl = "") (hbu : cfg.baseUrl ≠ "")
    (hs : start ≠ some 0) (he : end_ ≠ some 0) :
    remoteUrl cfg sha filePath start end_
      = removeTrailingSlash cfg.baseUrl ++ "/"
        ++ (if sha ≠ "" then sha ++ "/" else "")
        ++ removeLeadingAndTrailingSlash filePath
        ++ (match start, end_ with
            | some s, some e => "#L" ++ toString s ++ "-L" ++ toString e
            | _, _ => "") := by
  unfold remoteUrl
  dsimp only
  rw [if_neg (fun hand => hbu hand.1), if_neg (fun hn => hn hcu)]
  rcases start with _ | s
  · rcases end_ with _ | e <;> simp [truthyNum]
  · have hs0 : s ≠ 0 := fun h => hs (by rw [h])
    rcases end_ with _ | e
    · simp [truthyNum]
    · have he0 : e ≠ 0 := fun h => he (by rw [h])
      simp [truthyNum, hs0, he0]

/-- Witness for C6: the specification's concrete example. -/
theorem remoteUrl_base_branch_witness :
    remoteUrl ⟨".", "", "https://git.example/repo"⟩ "abc123" "/src/x.ts"
        (some 5) (some 10)
      = "https://git.example/repo/abc123/src/x.ts#L5-L10" :=
  (remoteUrl_base_branch ⟨".", "", "https://git.example/repo"⟩ "abc123" "/src/x.ts"
    (some 5) (some 10) rfl (by decide) (by decide) (by decide)).trans (by decide)

/-- C7: if neither the custom URL template nor the base URL is configured
the remote URL is the empty string; and whenever a custom template is
configured it determines the result — by first-occurrence placeholder
substitution — regardless of whether a base URL is also configured. -/
theorem remoteUrl_precedence (cfg : Config) (sha filePath : String)
    (start end_ : Option Nat) :
    (cfg.customUrl = "" → cfg.baseUrl = "" →
      remoteUrl cfg sha filePath start end_ = "")
    ∧ (cfg.customUrl ≠ "" → remoteUrl cfg sha filePath start end_
        = replaceFirst (replaceFirst (replaceFirst (replaceFirst cfg.customUrl
            "{sha}" sha)
            "{file}" (removeLeadingAndTrailingSlash filePath))
            "{start}" (if truthyNum start then toString (start.getD 0) else "0"))
            "{end}" (if truthyNum end_ then toString (end_.getD 0) else "0")) := by
  constructor
  · intro hcu hbu
    unfold remoteUrl
    dsimp only
    rw [if_pos ⟨hbu, hcu⟩]
  · intro hcu
    unfold remoteUrl
    dsimp only
    rw [if_neg (fun hand => hcu hand.2), if_pos hcu]

/-- Witness for C7: with nothing configured the result is empty; with both
templates configured, the custom one wins (the specification's example). -/
theorem remoteUrl_precedence_witness :
    remoteUrl ⟨".", "", ""⟩ "abc" "/x.ts" (some 1) (some 2) = ""
    ∧ remoteUrl ⟨".", "{file}@{sha}:{start}", "https://base"⟩ "deadbeef" "a.ts"
        (some 3) none
      = "a.ts@deadbeef:3" :=
  ⟨(remoteUrl_precedence ⟨".", "", ""⟩ "abc" "/x.ts" (some 1) (some 2)).1 rfl rfl,
   ((remoteUrl_precedence ⟨".", "{file}@{sha}:{start}", "https://base"⟩ "deadbeef"
      "a.ts" (some 3) none).2 (by decide)).trans (by decide)⟩

/-- Placeholder texts are nonempty. -/
theorem placeholderText_ne_nil (k : UrlPlaceholder) : placeholderText k ≠ [] := by
  cases k <;> decide

/-- Placeholder texts are an opening brace followed by a brace-free tail. -/
theorem placeholderText_shape (k : UrlPlaceholder) :
    ∃ qt, placeholderText k = '{' :: qt ∧ '{' ∉ qt := by
  cases k
  · exact ⟨"sha\x7d".data, by decide, by decide⟩
  · exact ⟨"file\x7d".data, by decide, by decide⟩
  · exact ⟨"start\x7d".data, by decide, by decide⟩
  · exact ⟨"end\x7d".data, by decide, by decide⟩

/-- A mismatch within the first `n` characters rules out the prefix relation,
whatever follows the candidate. -/
theorem not_isPrefixOf_append_of_take_ne (n : Nat) {p q : List Char}
    (hp : n ≤ p.length) (hq : n ≤ q.length) (hne : p.take n ≠ q.take n)
    (rest : List Char) : p.isPrefixOf (q ++ rest) = false := by
  rcases h : p.isPrefixOf (q ++ rest)
  · rfl
  · exfalso
    rcases List.isPrefixOf_iff_prefix.mp h with ⟨t, ht⟩
    apply hne
    have htake : (p ++ t).take n = (q ++ rest).take n := by rw [ht]
    rwa [List.take_append_of_le_length hp, List.take_append_of_le_length hq] at htake

/-- Distinct placeholders never begin with one another's text: the texts
differ within their first three characters. -/
theorem placeholderText_not_prefix {k k' : UrlPlaceholder} (hkk : k ≠ k')
    (rest : List Char) :
    (placeholderText k).isPrefixOf (placeholderText k' ++ rest) = false := by
  cases k <;> cases k' <;>
    first
      | exact absurd rfl hkk
      | exact not_isPrefixOf_append_of_take_ne 3 (by decide) (by decide) (by decide) rest

/-- `replaceFirstAux` passes over a brace-free chunk: the pattern starts with
an opening brace, so no match can begin inside the chunk. -/
theorem replaceFirstAux_append_braceFree {pt v : List Char} :
    ∀ {l : List Char}, '{' ∉ l → ∀ s : List Char,
      replaceFirstAux ('{' :: pt) v (l ++ s) = l ++ replaceFirstAux ('{' :: pt) v s
  | [], _, s => rfl
  | c :: l', hl, s => by
    have hc : c ≠ '{' := fun hcc => hl (hcc ▸ List.mem_cons_self c l')
    have hl' : '{' ∉ l' := fun hm => hl (List.mem_cons_of_mem _ hm)
    have hpre : (('{' :: pt).isPrefixOf (c :: (l' ++ s))) = false := by
      show (('{' == c) && pt.isPrefixOf (l' ++ s)) = false
      rw [show ('{' == c) = false from beq_eq_false_iff_ne.mpr fun hcc => hc hcc.symm]
      rfl
    show replaceFirstAux ('{' :: pt) v (c :: (l' ++ s)) = c :: (l' ++ replaceFirstAux ('{' :: pt) v s)
    simp only [replaceFirstAux, hpre]
    rw [if_neg (by simp)]
    rw [replaceFirstAux_append_braceFree hl' s]

/-- `replaceFirstAux` rewrites a pattern sitting at the head. -/
theorem replaceFirstAux_self_append {p v : List Char} (hp : p ≠ []) (s : List Char) :
    replaceFirstAux p v (p ++ s) = v ++ s := by
  rcases hps : p with _ | ⟨c, cs⟩
  · exact absurd hps hp
  · have hpre : ((c :: cs).isPrefixOf (c :: (cs ++ s))) = true := by
      rw [List.isPrefixOf_iff_prefix]
      exact List.prefix_append (c :: cs) s
    show replaceFirstAux (c :: cs) v (c :: (cs ++ s)) = v ++ s
    unfold replaceFirstAux
    rw [if_pos hpre]
    show v ++ ((c :: cs) ++ s).drop (c :: cs).length = v ++ s
    rw [List.drop_left]

/-- `replaceFirstAux` passes over the text of a placeholder of another kind. -/
theorem replaceFirstAux_skip_placeholder {k k' : UrlPlaceholder} (hk : k ≠ k')
    (v s : List Char) :
    replaceFirstAux (placeholderText k) v (placeholderText k' ++ s)
      = placeholderText k' ++ replaceFirstAux (placeholderText k) v s := by
  obtain ⟨qt, hq, hqt⟩ := placeholderText_shape k'
  obtain ⟨pt, hp, _⟩ := placeholderText_shape k
  have hpre : ((placeholderText k).isPrefixOf ('{' :: (qt ++ s))) = false := by
    have h0 := placeholderText_not_prefix hk s
    rw [hq] at h0
    simpa using h0
  rw [hq]
  show replaceFirstAux (placeholderText k) v ('{' :: (qt ++ s))
    = '{' :: (qt ++ replaceFirstAux (placeholderText k) v s)
  simp only [replaceFirstAux]
  rw [if_neg (by simp [hpre])]
  rw [hp, replaceFirstAux_append_braceFree hqt, ← hp]

/-- One JavaScript `replace` step on a parsed template: exactly the first
`ph k` segment (if any) is substituted; everything else is untouched. -/
theorem replaceFirstAux_render (k : UrlPlaceholder) (v : List Char) :
    ∀ ts : List UrlToken, litsBraceFree ts = true →
      replaceFirstAux (placeholderText k) v (renderTemplate ts)
        = renderTemplate (replacePh k v ts)
  | [], _ => by
    have hp := placeholderText_ne_nil k
    simp only [renderTemplate, List.map_nil, List.flatten_nil, replacePh, replaceFirstAux]
    rw [if_neg fun h => hp (List.isEmpty_iff.mp h)]
  | .lit l :: ts, h => by
    have hl : ('{' ∉ l) ∧ litsBraceFree ts = true := by
      simpa [litsBraceFree, Bool.and_eq_true, decide_eq_true_eq] using h
    obtain ⟨qt, hq, _⟩ := placeholderText_shape k
    simp only [renderTemplate, List.map_cons, List.flatten_cons, renderToken, replacePh]
    rw [hq, replaceFirstAux_append_braceFree hl.1, ← hq]
    rw [show replaceFirstAux (placeholderText k) v ((List.map renderToken ts).flatten)
        = (List.map renderToken (replacePh k v ts)).flatten
      from replaceFirstAux_render k v ts hl.2]
  | .ph k' :: ts, h => by
    have hts : litsBraceFree ts = true := by simpa [litsBraceFree] using h
    by_cases hk : k' = k
    · subst hk
      simp only [renderTemplate, List.map_cons, List.flatten_cons, renderToken, replacePh,
        if_pos rfl]
      exact replaceFirstAux_self_append (placeholderText_ne_nil k') _
    · simp only [renderTemplate, List.map_cons, List.flatten_cons, renderToken, replacePh,
        if_neg hk]
      rw [show replaceFirstAux (placeholderText k) v
            (placeholderText k' ++ (List.map renderToken ts).flatten)
          = placeholderText k' ++ replaceFirstAux (placeholderText k) v
              ((List.map renderToken ts).flatten)
        from replaceFirstAux_skip_placeholder (fun he => hk he.symm) v (renderTemplate ts)]
      rw [show replaceFirstAux (placeholderText k) v ((List.map renderToken ts).flatten)
          = (List.map renderToken (replacePh k v ts)).flatten
        from replaceFirstAux_render k v ts hts]

/-- Replacing with a brace-free value preserves the brace-free invariant. -/
theorem litsBraceFree_replacePh {k : UrlPlaceholder} {v : List Char} (hv : '{' ∉ v) :
    ∀ {ts : List UrlToken}, litsBraceFree ts = true →
      litsBraceFree (replacePh k v ts) = true
  | [], _ => rfl
  | .lit l :: ts, h => by
    have hl : ('{' ∉ l) ∧ litsBraceFree ts = true := by
      simpa [litsBraceFree, Bool.and_eq_true, decide_eq_true_eq] using h
    simp [replacePh, litsBraceFree, hl.1, litsBraceFree_replacePh hv hl.2]
  | .ph k' :: ts, h => by
    have hts : litsBraceFree ts = true := by simpa [litsBraceFree] using h
    by_cases hk : k' = k
    · simp [replacePh, hk, litsBraceFree, hv, hts]
    · simp [replacePh, hk, litsBraceFree, litsBraceFree_replacePh hv hts]

/-- Decimal digits are never an opening brace. -/
theorem digitChar_ne_brace {n : Nat} (h : n < 10) : Nat.digitChar n ≠ '{' := by
  interval_cases n <;> decide

/-- The characters accumulated by `Nat.toDigitsCore` in base ten are never
opening braces. -/
theorem toDigitsCore_no_brace :
    ∀ (fuel n : Nat) (ds : List Char), '{' ∉ ds → '{' ∉ Nat.toDigitsCore 10 fuel n ds
  | 0, _, ds, h => by simpa [Nat.toDigitsCore] using h
  | fuel + 1, n, ds, h => by
    have hd : '{' ∉ (n % 10).digitChar :: ds := by
      intro hmem
      rcases List.mem_cons.mp hmem with h1 | h2
      · exact digitChar_ne_brace (Nat.mod_lt _ (by omega)) h1.symm
      · exact h h2
    simp only [Nat.toDigitsCore]
    split
    · exact hd
    · exact toDigitsCore_no_brace fuel _ _ hd

/-- The decimal rendering of a natural number contains no opening brace. -/
theorem toString_nat_no_brace (n : Nat) : '{' ∉ (toString n).data := by
  have hdata : (toString n).data = Nat.toDigitsCore 10 (n + 1) n [] := rfl
  rw [hdata]
  exact toDigitsCore_no_brace (n + 1) n [] (by simp)

/-- Replacing one placeholder kind changes the count of another kind's
segments by at most one (and only for the same kind). -/
theorem count_replacePh_le (k k' : UrlPlaceholder) (v : List Char) :
    ∀ ts : List UrlToken,
      ts.count (UrlToken.ph k) ≤ (replacePh k' v ts).count (UrlToken.ph k)
        + (if k' = k then 1 else 0)
  | [] => by simp [replacePh]
  | .lit l :: ts => by
    have ih := count_replacePh_le k k' v ts
    simp only [replacePh, List.count_cons]
    omega
  | .ph k'' :: ts => by
    have ih := count_replacePh_le k k' v ts
    by_cases h2 : k'' = k'
    · subst h2
      by_cases h3 : k'' = k
      · subst h3
        simp [replacePh, List.count_cons]
      · simp [replacePh, List.count_cons, h3]
    · simp only [replacePh, if_neg h2, List.count_cons]
      omega

/-- `occursIn` is monotone under prepending. -/
theorem occursIn_append_right {p s : List Char} (h : occursIn p s = true) :
    ∀ l : List Char, occursIn p (l ++ s) = true
  | [] => h
  | c :: l' => by
    simp only [List.cons_append, occursIn, Bool.or_eq_true]
    right
    exact occursIn_append_right h l'

/-- The text of any `ph k` segment of a template occurs in its rendering. -/
theorem occursIn_render_of_mem {k : UrlPlaceholder} :
    ∀ {ts : List UrlToken}, UrlToken.ph k ∈ ts →
      occursIn (placeholderText k) (renderTemplate ts) = true
  | [], hmem => absurd hmem (List.not_mem_nil _)
  | t :: ts', hmem => by
    rcases List.mem_cons.mp hmem with h | h
    · simp only [renderTemplate, List.map_cons, List.flatten_cons, ← h, renderToken]
      have h0 := occursIn_append_self (placeholderText k) [] (renderTemplate ts')
      simpa [renderTemplate] using h0
    · have h0 := occursIn_render_of_mem h
      simp only [renderTemplate, List.map_cons, List.flatten_cons]
      exact occursIn_append_right (by simpa [renderTemplate] using h0) _

/-- C9: in the custom-template branch of the remote URL builder, each of the
four placeholders is substituted only at its first occurrence in the template
(JavaScript `String.replace` with a string pattern), and any repeated
occurrence of the same placeholder is left unsubstituted in the returned URL.
The template is an arbitrary segment list `ts` — placeholders of every kind,
each as often as desired, interleaved with literal chunks — under disclosed
non-interference side conditions: literal chunks and the substituted SHA and
file-path values contain no opening brace.  The result is the rendering of
`ts` with, for each kind, exactly the first `ph` segment replaced by its
value (`replacePh` leaves all repeats), and every repeated placeholder's raw
text still occurs in the returned URL. -/
theorem remoteUrl_custom_replaces_first_occurrence_only (cfg : Config)
    (sha filePath : String) (start end_ : Option Nat) (ts : List UrlToken)
    (hshape : cfg.customUrl.data = renderTemplate ts)
    (hts : litsBraceFree ts = true)
    (hne : cfg.customUrl ≠ "")
    (hsha : '{' ∉ sha.data)
    (hfile : '{' ∉ (removeLeadingAndTrailingSlash filePath).data) :
    (remoteUrl cfg sha filePath start end_).data
      = renderTemplate
          (replacePh .lineEnd
              (if truthyNum end_ then toString (end_.getD 0) else "0").data
            (replacePh .lineStart
                (if truthyNum start then toString (start.getD 0) else "0").data
              (replacePh .file (removeLeadingAndTrailingSlash filePath).data
                (replacePh .sha sha.data ts))))
    ∧ ∀ k : UrlPlaceholder, 2 ≤ ts.count (UrlToken.ph k) →
        occursIn (placeholderText k) (remoteUrl cfg sha filePath start end_).data
          = true := by
  have hv3 : '{' ∉ (if truthyNum start then toString (start.getD 0) else "0").data := by
    split
    · exact toString_nat_no_brace _
    · decide
  have hv4 : '{' ∉ (if truthyNum end_ then toString (end_.getD 0) else "0").data := by
    split
    · exact toString_nat_no_brace _
    · decide
  have hurl : remoteUrl cfg sha filePath start end_
      = replaceFirst (replaceFirst (replaceFirst (replaceFirst cfg.customUrl
          "{sha}" sha)
          "{file}" (removeLeadingAndTrailingSlash filePath))
          "{start}" (if truthyNum start then toString (start.getD 0) else "0"))
          "{end}" (if truthyNum end_ then toString (end_.getD 0) else "0") := by
    unfold remoteUrl
    dsimp only
    rw [if_neg (fun hand => hne hand.2), if_pos hne]
  have h1 : (replaceFirst cfg.customUrl "{sha}" sha).data
      = renderTemplate (replacePh .sha sha.data ts) := by
    show replaceFirstAux "{sha}".data sha.data cfg.customUrl.data = _
    rw [hshape]
    exact replaceFirstAux_render .sha sha.data ts hts
  have hts1 : litsBraceFree (replacePh .sha sha.data ts) = true :=
    litsBraceFree_replacePh hsha hts
  have h2 : (replaceFirst (replaceFirst cfg.customUrl "{sha}" sha) "{file}"
      (removeLeadingAndTrailingSlash filePath)).data
      = renderTemplate (replacePh .file (removeLeadingAndTrailingSlash filePath).data
          (replacePh .sha sha.data ts)) := by
    show replaceFirstAux "{file}".data (removeLeadingAndTrailingSlash filePath).data
      (replaceFirst cfg.customUrl "{sha}" sha).data = _
    rw [h1]
    exact replaceFirstAux_render .file _ _ hts1
  have hts2 : litsBraceFree (replacePh .file (removeLeadingAndTrailingSlash filePath).data
      (replacePh .sha sha.data ts)) = true :=
    litsBraceFree_replacePh hfile hts1
  have h3 : (replaceFirst (replaceFirst (replaceFirst cfg.customUrl "{sha}" sha)
      "{file}" (removeLeadingAndTrailingSlash filePath)) "{start}"
      (if truthyNum start then toString (start.getD 0) else "0")).data
      = renderTemplate (replacePh .lineStart
          (if truthyNum start then toString (start.getD 0) else "0").data
          (replacePh .file (removeLeadingAndTrailingSlash filePath).data
            (replacePh .sha sha.data ts))) := by
    show replaceFirstAux "{start}".data
      (if truthyNum start then toString (start.getD 0) else "0").data
      (replaceFirst (replaceFirst cfg.customUrl "{sha}" sha) "{file}"
        (removeLeadingAndTrailingSlash filePath)).data = _
    rw [h2]
    exact replaceFirstAux_render .lineStart _ _ hts2
  have hts3 : litsBraceFree (replacePh .lineStart
      (if truthyNum start then toString (start.getD 0) else "0").data
      (replacePh .file (removeLeadingAndTrailingSlash filePath).data
        (replacePh .sha sha.data ts))) = true :=
    litsBraceFree_replacePh hv3 hts2
  have hmain : (remoteUrl cfg sha filePath start end_).data
      = renderTemplate
          (replacePh .lineEnd
              (if truthyNum end_ then toString (end_.getD 0) else "0").data
            (replacePh .lineStart
                (if truthyNum start then toString (start.getD 0) else "0").data
              (replacePh .file (removeLeadingAndTrailingSlash filePath).data
                (replacePh .sha sha.data ts)))) := by
    rw [hurl]
    show replaceFirstAux "{end}".data
      (if truthyNum end_ then toString (end_.getD 0) else "0").data
      (replaceFirst (replaceFirst (replaceFirst cfg.customUrl "{sha}" sha)
        "{file}" (removeLeadingAndTrailingSlash filePath)) "{start}"
        (if truthyNum start then toString (start.getD 0) else "0")).data = _
    rw [h3]
    exact replaceFirstAux_render .lineEnd _ _ hts3
  refine ⟨hmain, fun k hcount => ?_⟩
  rw [hmain]
  have l1 := count_replacePh_le k .sha sha.data ts
  have l2 := count_replacePh_le k .file (removeLeadingAndTrailingSlash filePath).data
    (replacePh .sha sha.data ts)
  have l3 := count_replacePh_le k .lineStart
    (if truthyNum start then toString (start.getD 0) else "0").data
    (replacePh .file (removeLeadingAndTrailingSlash filePath).data
      (replacePh .sha sha.data ts))
  have l4 := count_replacePh_le k .lineEnd
    (if truthyNum end_ then toString (end_.getD 0) else "0").data
    (replacePh .lineStart
      (if truthyNum start then toString (start.getD 0) else "0").data
      (replacePh .file (removeLeadingAndTrailingSlash filePath).data
        (replacePh .sha sha.data ts)))
  have hpos : 0 < (replacePh .lineEnd
      (if truthyNum end_ then toString (end_.getD 0) else "0").data
    (replacePh .lineStart
        (if truthyNum start then toString (start.getD 0) else "0").data
      (replacePh .file (removeLeadingAndTrailingSlash filePath).data
        (replacePh .sha sha.data ts)))).count (UrlToken.ph k) := by
    rcases k <;> simp at l1 l2 l3 l4 <;> omega
  exact occursIn_render_of_mem (List.count_pos_iff.mp hpos)

/-- Witness for C9: a template using all four placeholders, `sha` twice
(`a{sha}b{file}c{sha}d{start}e{end}`): the first `sha` is substituted, the
repeated `sha` survives as raw text in the returned URL. -/
theorem remoteUrl_custom_first_occurrence_witness :
    (remoteUrl ⟨".", "a{sha}b{file}c{sha}d{start}e{end}", ""⟩ "S" "/f/"
        (some 7) none).data
      = renderTemplate
          (replacePh .lineEnd (if truthyNum none then toString (none.getD 0) else "0").data
            (replacePh .lineStart
                (if truthyNum (some 7) then toString ((some 7).getD 0) else "0").data
              (replacePh .file (removeLeadingAndTrailingSlash "/f/").data
                (replacePh .sha "S".data
                  [UrlToken.lit "a".data, UrlToken.ph .sha, UrlToken.lit "b".data,
                   UrlToken.ph .file, UrlToken.lit "c".data, UrlToken.ph .sha,
                   UrlToken.lit "d".data, UrlToken.ph .lineStart,
                   UrlToken.lit "e".data, UrlToken.ph .lineEnd]))))
    ∧ occursIn (placeholderText .sha)
        (remoteUrl ⟨".", "a{sha}b{file}c{sha}d{start}e{end}", ""⟩ "S" "/f/"
          (some 7) none).data = true :=
  ⟨(remoteUrl_custom_replaces_first_occurrence_only ⟨".", "a{sha}b{file}c{sha}d{start}e{end}", ""⟩
      "S" "/f/" (some 7) none
      [UrlToken.lit "a".data, UrlToken.ph .sha, UrlToken.lit "b".data,
       UrlToken.ph .file, UrlToken.lit "c".data, UrlToken.ph .sha,
       UrlToken.lit "d".data, UrlToken.ph .lineStart,
       UrlToken.lit "e".data, UrlToken.ph .lineEnd]
      (by decide) (by decide) (by decide) (by decide) (by decide)).1,
   (remoteUrl_custom_replaces_first_occurrence_only ⟨".", "a{sha}b{file}c{sha}d{start}e{end}", ""⟩
      "S" "/f/" (some 7) none
      [UrlToken.lit "a".data, UrlToken.ph .sha, UrlToken.lit "b".data,
       UrlToken.ph .file, UrlToken.lit "c".data, UrlToken.ph .sha,
       UrlToken.lit "d".data, UrlToken.ph .lineStart,
       UrlToken.lit "e".data, UrlToken.ph .lineEnd]
      (by decide) (by decide) (by decide) (by decide) (by decide)).2 .sha (by decide)⟩

end CodeReview
